import Mathlib

/-!
Verification development for the sshdol path-scoped remote-file mapping
(`src/sshdol/base.py`).

Embedding conventions:

* A Python `str` is modelled as `PyStr := List Char` (a Python string is a
  sequence of code points).
* The remote filesystem reachable from a node's `rootdir` is modelled as an
  association list `Fs` from relative path strings to entries (`dir` or
  `file` with byte content).  The SFTP/`exec_command` primitives
  (`stat`, `listdir`, `open`, `mkdir`, `rmdir`, `remove`, the `[ -e p ]`
  existence probe and the `find`-based bulk walk/count) are modelled as pure
  functions over this state.  A remote error whose precise text comes from
  the transport is modelled with a fixed stand-in message tail; the wrapping
  prefixes are taken verbatim from the source.
* Python bytes are `List Nat`; `str.encode` / `bytes.decode` (external
  Python primitives) are modelled as an injective code-point serialization
  with its partial inverse.
* Exceptions are modelled with `Except Err`; mutating operations return the
  final filesystem state paired with the outcome, mirroring the fact that a
  raised exception does not roll back remote mutations already performed.
-/

abbrev PyStr := List Char

/-- `normalize_path` from `base.py`: empty or "." maps to ""; one trailing
"/" is stripped; then backslashes are replaced by forward slashes. -/
def normalize_path (path : PyStr) : PyStr :=
  if path = [] ∨ path = ['.'] then []
  else
    let path := if path.getLast? = some '/' then path.dropLast else path
    path.map (fun c => if c = '\\' then '/' else c)

/-- `split_path` from `base.py`: normalize, then split on the last "/";
when there is no "/", the directory part is empty. -/
def split_path (path : PyStr) : PyStr × PyStr :=
  let p := normalize_path path
  if p.contains '/' then
    let revBase := p.reverse.takeWhile (fun c => c ≠ '/')
    ((p.reverse.drop (revBase.length + 1)).reverse, revBase.reverse)
  else ([], p)

/-- An entry of the remote filesystem: a directory or a file with byte
content. -/
inductive FsEntry where
  | dir : FsEntry
  | file (content : List Nat) : FsEntry
deriving DecidableEq

/-- The remote filesystem visible from a node's `rootdir`: an association
list from relative path strings to entries. -/
abbrev Fs := List (PyStr × FsEntry)

def Fs.lookup : Fs → PyStr → Option FsEntry
  | [], _ => none
  | (k2, e) :: rest, k => if k = k2 then some e else Fs.lookup rest k

/-- Model of creating/overwriting an entry (SFTP write or mkdir). -/
def Fs.insert (fs : Fs) (k : PyStr) (e : FsEntry) : Fs :=
  (k, e) :: fs.filter (fun kv => kv.1 ≠ k)

/-- Model of removing an entry (SFTP `remove`/`rmdir`). -/
def Fs.eraseKey (fs : Fs) (k : PyStr) : Fs :=
  fs.filter (fun kv => kv.1 ≠ k)

/-- The configuration snapshot stored by `SshFilesReader.__init__`
(transport/authentication parameters are external and omitted). -/
structure Config where
  include_hidden : Bool := false
  include_directories : Bool := true
  dir_access : Bool := true
  encoding : Option String := none
  max_levels : Option Nat := some 0
  create_dirs : Bool := false
  strict_contains : Bool := false
deriving DecidableEq

/-- A raised Python exception: `KeyError` or `TypeError`, with its message
as a string. -/
inductive Err where
  | keyError (msg : PyStr) : Err
  | typeError (msg : PyStr) : Err
deriving DecidableEq

def depthMsg (depth ml : Nat) (path : PyStr) : PyStr :=
  "Path depth (".data ++ (toString depth).data
    ++ ") exceeds maximum allowed depth (".data ++ (toString ml).data
    ++ "): ".data ++ path

def dirAccessMsg (path : PyStr) : PyStr :=
  "Directory access is disabled: ".data ++ path

def dirPartMissingMsg (d : PyStr) : PyStr :=
  "Directory part does not exist: ".data ++ d

def pathConflictMsg (d : PyStr) : PyStr :=
  "Path exists but is not a directory: ".data ++ d

def missingDirMsg (d : PyStr) : PyStr :=
  "Directory does not exist and create_dirs=False: ".data ++ d

def mkdirFailMsg (d : PyStr) : PyStr :=
  "Failed to create directory ".data ++ d ++ ": remote error".data

def readErrMsg (k : PyStr) : PyStr :=
  "Error reading file ".data ++ k ++ ": remote error".data

def writeErrMsg (k : PyStr) : PyStr :=
  "Error writing to file ".data ++ k ++ ": remote error".data

def notEmptyMsg (path : PyStr) : PyStr :=
  "Cannot delete non-empty directory: ".data ++ path

def delGenericMsg (k : PyStr) : PyStr :=
  "Error deleting ".data ++ k ++ ": remote error".data

def alreadyExistsMsg (path : PyStr) : PyStr :=
  "Directory already exists: ".data ++ path

/-- `SshFilesReader._check_path_depth`: with unlimited `max_levels` or an
empty normalized path it succeeds; otherwise a path whose separator count
exceeds `max_levels` raises a `KeyError` naming the depth and the limit. -/
def check_path_depth (cfg : Config) (path : PyStr) : Except Err Bool :=
  match cfg.max_levels with
  | none => .ok true
  | some ml =>
    let normalized_path := normalize_path path
    if normalized_path = [] then .ok true
    else
      let depth := normalized_path.count '/'
      if depth > ml then .error (.keyError (depthMsg depth ml path))
      else .ok true

/-- `SshFilesReader._is_dir`: stat the path, `S_ISDIR` of the result;
missing or unreadable paths count as non-directories. -/
def isDir (fs : Fs) (path : PyStr) : Bool :=
  match Fs.lookup fs path with
  | some .dir => true
  | _ => false

/-- `SshFilesReader._path_exists`: remote `[ -e p ]` probe on the
normalized path (the probe on an empty quoted path is false). -/
def path_exists (fs : Fs) (path : PyStr) : Bool :=
  let q := normalize_path path
  if q = [] then false else (Fs.lookup fs q).isSome

def hiddenName (name : PyStr) : Bool :=
  name.head? = some '.'

/-- The name of `k` as a direct child of directory `p` (`none` when `k` is
not a direct child).  Children of the root directory "." are the keys
without a separator. -/
def isChildName (p k : PyStr) : Option PyStr :=
  if p = ['.'] ∨ p = [] then
    if k ≠ [] ∧ ¬ k.contains '/' then some k else none
  else if k.take p.length = p ∧ (k.drop p.length).head? = some '/' then
    let name := k.drop (p.length + 1)
    if name ≠ [] ∧ ¬ name.contains '/' then some name else none
  else none

/-- All direct-child names of `p` in the filesystem (what `sftp.listdir`
returns, before hidden filtering). -/
def childNamesAll (fs : Fs) (p : PyStr) : List PyStr :=
  (fs.map Prod.fst).filterMap (isChildName p)

/-- `SshFilesReader._list_directory`: `listdir`, dropping dotfiles unless
`include_hidden`; a listing error yields `[]` (non-fatal by design). -/
def list_directory (cfg : Config) (fs : Fs) (p : PyStr) : List PyStr :=
  let entries := childNamesAll fs p
  if cfg.include_hidden then entries
  else entries.filter (fun e => !(hiddenName e))

/-- Whether a key has a hidden segment after a separator (used by the
`find` prune clause `-path './.*' -o -path '*/.*'`). -/
def hasDotAfterSlash : PyStr → Bool
  | [] => false
  | c :: rest => (c = '/' && rest.head? = some '.') || hasDotAfterSlash rest

/-- A relative path pruned by the hidden filter of the bulk `find`
commands: a component starting with ".". -/
def isHiddenPath (k : PyStr) : Bool :=
  hiddenName k || hasDotAfterSlash k

/-- The depth and hidden filters shared by the bulk `find` walk
(`-mindepth 1 -maxdepth ml+1` keeps keys with at most `ml` separators)
and the remote count of `__len__`. -/
def keepWalk (cfg : Config) (ml : Option Nat) (k : PyStr) : Bool :=
  (match ml with
   | none => true
   | some m => decide (k.count '/' ≤ m)) &&
  (cfg.include_hidden || !(isHiddenPath k))

/-- `SshFilesReader._walk_directory` in its bulk-`find` form: the remote
enumeration of all entries within the depth limit, hidden entries pruned,
each tagged with its type. -/
def walkList (cfg : Config) (fs : Fs) (ml : Option Nat) : List (PyStr × Bool) :=
  fs.filterMap (fun kv =>
    if keepWalk cfg ml kv.1 then some (kv.1, kv.2 = FsEntry.dir) else none)

/-- The seen-set duplicate suppression of `__iter__`. -/
def dedupAux : List PyStr → List PyStr → List PyStr
  | [], _ => []
  | x :: xs, seen =>
    if x ∈ seen then dedupAux xs seen else x :: dedupAux xs (x :: seen)

def dedupFirst (l : List PyStr) : List PyStr := dedupAux l []

/-- `SshFilesReader.__iter__`: at `max_levels == 0` the immediate listing
(directories suffixed with "/", suppressed unless `include_directories`);
otherwise the bulk walk with the same suffixing and seen-set dedup. -/
def iterKeys (cfg : Config) (fs : Fs) : List PyStr :=
  match cfg.max_levels with
  | some 0 =>
    (list_directory cfg fs ['.']).flatMap (fun e =>
      if isDir fs e then
        if cfg.include_directories then [e ++ ['/']] else []
      else [e])
  | ml =>
    dedupFirst ((walkList cfg fs ml).filterMap (fun pd =>
      if pd.2 then
        if cfg.include_directories then some (pd.1 ++ ['/']) else none
      else some pd.1))

/-- `SshFilesReader.__len__`: the single remote
`find . -mindepth 1 -maxdepth … <prune-hidden> <type-clause> | wc -l`
count, sharing the walk's depth/hidden filters; the type clause counts
directories only when `include_directories`. -/
def lenOp (cfg : Config) (fs : Fs) : Nat :=
  (fs.filter (fun kv =>
    keepWalk cfg cfg.max_levels kv.1 &&
    (cfg.include_directories || !(kv.2 = FsEntry.dir)))).length

/-- `SshFilesReader.__contains__`. -/
def containsOp (cfg : Config) (fs : Fs) (k : PyStr) : Except Err Bool :=
  let path := normalize_path k
  match cfg.max_levels with
  | some ml =>
    if path.count '/' > ml then
      if cfg.strict_contains then
        match check_path_depth cfg path with
        | .error e => .error e
        | .ok _ => .ok false
      else .ok false
    else .ok (path_exists fs path)
  | none => .ok (path_exists fs path)

/-- A value handed to or returned by the store: raw bytes, or text when an
encoding is configured. -/
inductive Value where
  | bytes (b : List Nat) : Value
  | text (s : PyStr) : Value
deriving DecidableEq

/-- Model of Python `str.encode` (an external primitive): an injective
serialization of the code points. -/
def encodeStr (s : PyStr) : List Nat :=
  s.map Char.toNat

/-- Model of Python `bytes.decode`: the partial inverse of `encodeStr`. -/
def decodeCp (n : Nat) : Option Char :=
  if h : n.isValidChar then some (Char.ofNatAux n h) else none

def decodeBytes : List Nat → Option PyStr
  | [] => some []
  | n :: rest =>
    match decodeCp n, decodeBytes rest with
    | some c, some s => some (c :: s)
    | _, _ => none

/-- The result of `__getitem__`: file content, or a child node scoped to a
subdirectory (identified by its new `rootdir`). -/
inductive GetResult where
  | content (v : Value) : GetResult
  | node (rootdir : PyStr) : GetResult
deriving DecidableEq

/-- The child `rootdir` computed by `__getitem__` for a directory key. -/
def newRootdir (rootdir path : PyStr) : PyStr :=
  if rootdir = ['.'] then path
  else if rootdir.getLast? = some '/' then rootdir ++ path
  else rootdir ++ '/' :: path

/-- Opening `path` for reading and decoding per the configured encoding;
any failure (missing path, directory, decode error) is wrapped as
`KeyError("Error reading file {k}: …")`. -/
def readFilePrim (cfg : Config) (fs : Fs) (path k : PyStr) : Except Err GetResult :=
  match Fs.lookup fs path with
  | some (.file b) =>
    match cfg.encoding with
    | none => .ok (.content (.bytes b))
    | some _ =>
      match decodeBytes b with
      | some s => .ok (.content (.text s))
      | none => .error (.keyError (readErrMsg k))
  | _ => .error (.keyError (readErrMsg k))

/-- `SshFilesReader.__getitem__`. -/
def getitem (cfg : Config) (fs : Fs) (rootdir : PyStr) (k : PyStr) :
    Except Err GetResult :=
  let path := normalize_path k
  match check_path_depth cfg path with
  | .error e => .error e
  | .ok _ =>
    let is_dir := isDir fs path
    if is_dir && !cfg.dir_access then
      .error (.keyError (dirAccessMsg path))
    else if path.contains '/' then
      let dir_part := (split_path path).1
      if dir_part ≠ [] ∧ ¬ path_exists fs dir_part then
        .error (.keyError (dirPartMissingMsg dir_part))
      else if is_dir then .ok (.node (newRootdir rootdir path))
      else readFilePrim cfg fs path k
    else if is_dir then .ok (.node (newRootdir rootdir path))
    else readFilePrim cfg fs path k

/-- Whether the parent directory of `p` exists (the root "" and "." always
do), as required by the SFTP `open(…, "wb")` and `mkdir` primitives. -/
def parentOkForCreate (fs : Fs) (p : PyStr) : Bool :=
  let d := (split_path p).1
  d = [] || d = ['.'] || isDir fs d

/-- Model of `sftp.mkdir` wrapped in
`KeyError("Failed to create directory {path}: …")` (as done at both of its
call sites): fails when the path already exists or its parent is missing. -/
def mkdirPrim (fs : Fs) (p : PyStr) : Fs × Except Err Bool :=
  if (Fs.lookup fs p).isSome then (fs, .error (.keyError (mkdirFailMsg p)))
  else if !(parentOkForCreate fs p) then (fs, .error (.keyError (mkdirFailMsg p)))
  else (Fs.insert fs p .dir, .ok true)

/-- `SshFiles._ensure_directory_exists`, with an explicit recursion fuel:
the recursion is on the strictly shorter parent path, so a fuel of
`dir_path.length + 1` always suffices (the fuel-exhaustion branch is
unreachable from the wrapper below). -/
def ensureFuel (cfg : Config) : Nat → Fs → PyStr → Fs × Except Err Bool
  | 0, fs, dir_path => (fs, .error (.keyError (mkdirFailMsg dir_path)))
  | fuel + 1, fs, dir_path =>
    if dir_path = [] ∨ dir_path = ['.'] then (fs, .ok true)
    else
      match Fs.lookup fs dir_path with
      | some .dir => (fs, .ok true)
      | some (.file _) => (fs, .error (.keyError (pathConflictMsg dir_path)))
      | none =>
        if !cfg.create_dirs then (fs, .error (.keyError (missingDirMsg dir_path)))
        else
          let parent_dir := (split_path dir_path).1
          let step :=
            if parent_dir = [] then (fs, Except.ok true)
            else ensureFuel cfg fuel fs parent_dir
          match step.2 with
          | .error e => (step.1, .error e)
          | .ok _ => mkdirPrim step.1 dir_path

def ensure_directory_exists (cfg : Config) (fs : Fs) (dir_path : PyStr) :
    Fs × Except Err Bool :=
  ensureFuel cfg (dir_path.length + 1) fs dir_path

/-- The trailing `sftp.file(path, "wb"); f.write(v)` of `__setitem__`: an
existing directory at `path`, an empty path, or a missing parent directory
makes the open fail, wrapped as `KeyError("Error writing to file {k}: …")`;
otherwise the file is created or fully overwritten. -/
def writePrim (fs : Fs) (path k : PyStr) (b : List Nat) : Fs × Except Err Unit :=
  match Fs.lookup fs path with
  | some .dir => (fs, .error (.keyError (writeErrMsg k)))
  | _ =>
    if path = [] ∨ path.getLast? = some '/' then
      (fs, .error (.keyError (writeErrMsg k)))
    else if parentOkForCreate fs path then (Fs.insert fs path (.file b), .ok ())
    else (fs, .error (.keyError (writeErrMsg k)))

/-- The encoding gate of `__setitem__`: with an encoding set the value
must be text (and is encoded); with no encoding it must be bytes. -/
def encodeValue (cfg : Config) (v : Value) : Except Err (List Nat) :=
  match cfg.encoding with
  | some _ =>
    match v with
    | .text s => .ok (encodeStr s)
    | .bytes _ =>
      .error (.typeError "When encoding is set, value must be a string".data)
  | none =>
    match v with
    | .bytes b => .ok b
    | .text _ =>
      .error (.typeError "When encoding is None, value must be bytes".data)

/-- `SshFiles.__setitem__`. -/
def setitem (cfg : Config) (fs : Fs) (k : PyStr) (v : Value) :
    Fs × Except Err Unit :=
  let path := normalize_path k
  match check_path_depth cfg path with
  | .error e => (fs, .error e)
  | .ok _ =>
    match encodeValue cfg v with
    | .error e => (fs, .error e)
    | .ok b =>
      let ensured :=
        if path.contains '/' ∧ (split_path path).1 ≠ [] then
          ensure_directory_exists cfg fs (split_path path).1
        else (fs, .ok true)
      match ensured.2 with
      | .error e => (ensured.1, .error e)
      | .ok _ => writePrim ensured.1 path k b

/-- `SshFiles.__delitem__` (note: it performs no depth check).  The
`rmdir` of a directory whose listing (after hidden filtering) is empty but
which still holds entries fails remotely and is wrapped as the generic
`KeyError("Error deleting {k}: …")`. -/
def delitem (cfg : Config) (fs : Fs) (k : PyStr) : Fs × Except Err Unit :=
  let path := normalize_path k
  if !(path_exists fs path) then (fs, .error (.keyError k))
  else if isDir fs path then
    if !(list_directory cfg fs path).isEmpty then
      (fs, .error (.keyError (notEmptyMsg path)))
    else if !(childNamesAll fs path).isEmpty then
      (fs, .error (.keyError (delGenericMsg k)))
    else (Fs.eraseKey fs path, .ok ())
  else (Fs.eraseKey fs path, .ok ())

/-- `SshFiles.mkdir`: create (or, with `exist_ok`, accept) the directory,
then return `self[path]` — an ordinary `__getitem__` on the same node. -/
def mkdirOp (cfg : Config) (fs : Fs) (rootdir : PyStr) (p : PyStr)
    (exist_ok : Bool) : Fs × Except Err GetResult :=
  let path := normalize_path p
  let created : Fs × Except Err Unit :=
    if path_exists fs path then
      if isDir fs path then
        if !exist_ok then (fs, .error (.keyError (alreadyExistsMsg path)))
        else (fs, .ok ())
      else (fs, .error (.keyError (pathConflictMsg path)))
    else
      let dir_part := (split_path path).1
      let ensured :=
        if dir_part ≠ [] then ensure_directory_exists cfg fs dir_part
        else (fs, .ok true)
      match ensured.2 with
      | .error e => (ensured.1, .error e)
      | .ok _ =>
        let made := mkdirPrim ensured.1 path
        match made.2 with
        | .error e => (made.1, .error e)
        | .ok _ => (made.1, .ok ())
  match created.2 with
  | .error e => (created.1, .error e)
  | .ok _ =>
    match getitem cfg created.1 rootdir path with
    | .ok r => (created.1, .ok r)
    | .error e => (created.1, .error e)

deriving instance DecidableEq for Except

/-! ### Library lemmas about the model primitives -/

theorem decodeCp_toNat (c : Char) : decodeCp c.toNat = some c := by
  have h : Nat.isValidChar c.toNat := c.valid
  simp only [decodeCp, dif_pos h]
  rfl

theorem decode_encode (s : PyStr) : decodeBytes (encodeStr s) = some s := by
  induction s with
  | nil => rfl
  | cons c cs ih =>
    simp only [encodeStr, List.map_cons, decodeBytes, decodeCp_toNat c]
    simp only [encodeStr] at ih
    rw [ih]

theorem lookup_insert (fs : Fs) (k : PyStr) (e : FsEntry) :
    Fs.lookup (Fs.insert fs k e) k = some e := by
  simp [Fs.insert, Fs.lookup]

theorem lookup_filter_ne (fs : Fs) (k k' : PyStr) (h : k' ≠ k) :
    Fs.lookup (fs.filter (fun kv => kv.1 ≠ k)) k' = Fs.lookup fs k' := by
  induction fs with
  | nil => rfl
  | cons kv rest ih =>
    obtain ⟨k2, e2⟩ := kv
    simp only [List.filter_cons]
    by_cases h2 : k2 = k
    · subst h2
      rw [show (decide ((k2, e2).1 ≠ k2)) = false by simp]
      simp only [Bool.false_eq_true, if_false]
      rw [ih]
      simp only [Fs.lookup, if_neg h]
    · rw [show (decide ((k2, e2).1 ≠ k)) = true by simp [h2]]
      simp only [if_true]
      simp only [Fs.lookup]
      by_cases h3 : k' = k2
      · simp [h3]
      · rw [if_neg h3, if_neg h3]
        exact ih

theorem lookup_insert_ne (fs : Fs) (k k' : PyStr) (e : FsEntry) (h : k' ≠ k) :
    Fs.lookup (Fs.insert fs k e) k' = Fs.lookup fs k' := by
  simp only [Fs.insert, Fs.lookup, if_neg h]
  exact lookup_filter_ne fs k k' h

theorem normalize_length_le (p : PyStr) :
    (normalize_path p).length ≤ p.length := by
  unfold normalize_path
  split
  · simp
  · split
    · simp [List.length_dropLast]
    · simp

theorem split_fst_length_lt (p : PyStr)
    (h : (normalize_path p).contains '/' = true) :
    (split_path p).1.length < (normalize_path p).length := by
  unfold split_path
  simp only [h, if_pos]
  have hne : normalize_path p ≠ [] := by
    intro h0
    rw [h0] at h
    simp [List.contains] at h
  have hlen : 0 < (normalize_path p).length := List.length_pos.mpr hne
  simp only [List.length_reverse, List.length_drop]
  omega

theorem split_fst_nil_of_not_contains (p : PyStr)
    (h : (normalize_path p).contains '/' = false) :
    (split_path p).1 = [] := by
  unfold split_path
  have h2 : ¬ ('/' ∈ normalize_path p) := by
    simpa [List.contains] using h
  simp [h2]

theorem mkdirPrim_ok (fs fs' : Fs) (p : PyStr) (t : Bool)
    (h : mkdirPrim fs p = (fs', .ok t)) :
    fs' = Fs.insert fs p .dir := by
  unfold mkdirPrim at h
  split at h
  · simp at h
  · split at h
    · simp at h
    · injection h with h1 h2
      exact h1.symm

theorem ensure_ok_isdir (cfg : Config) (fs fs' : Fs) (d : PyStr) (t : Bool)
    (h : ensure_directory_exists cfg fs d = (fs', .ok t)) :
    d = [] ∨ d = ['.'] ∨ Fs.lookup fs' d = some .dir := by
  unfold ensure_directory_exists ensureFuel at h
  split at h
  · rename_i hd
    rcases hd with h0 | h0
    · exact Or.inl h0
    · exact Or.inr (Or.inl h0)
  · split at h
    · rename_i heq
      injection h with h1 h2
      subst h1
      exact Or.inr (Or.inr heq)
    · simp at h
    · split at h
      · simp at h
      · dsimp only at h
        split at h
        · simp at h
        · rename_i t2 heq2
          refine Or.inr (Or.inr ?_)
          rw [mkdirPrim_ok _ _ _ _ h]
          exact lookup_insert _ _ _


theorem writePrim_ok (fs fs' : Fs) (path k : PyStr) (b : List Nat)
    (h : writePrim fs path k b = (fs', .ok ())) :
    fs' = Fs.insert fs path (.file b) := by
  unfold writePrim at h
  split at h
  · simp at h
  · split at h
    · simp at h
    · split at h
      · injection h with h1 _
        exact h1.symm
      · simp at h

theorem setitem_ok_parts (cfg : Config) (fs fs' : Fs) (k : PyStr) (v : Value)
    (h : setitem cfg fs k v = (fs', .ok ())) :
    ∃ (b : List Nat) (fs1 : Fs),
      encodeValue cfg v = .ok b ∧
      (∃ u, check_path_depth cfg (normalize_path k) = .ok u) ∧
      fs' = Fs.insert fs1 (normalize_path k) (.file b) ∧
      ((normalize_path k).contains '/' = true →
        (split_path (normalize_path k)).1 ≠ [] →
        (split_path (normalize_path k)).1 = ['.'] ∨
          Fs.lookup fs1 ((split_path (normalize_path k)).1) = some .dir) := by
  unfold setitem at h
  dsimp only at h
  cases hchk : check_path_depth cfg (normalize_path k) with
  | error e =>
    rw [hchk] at h
    dsimp only at h
    simp at h
  | ok u =>
    rw [hchk] at h
    dsimp only at h
    cases henc : encodeValue cfg v with
    | error e =>
      rw [henc] at h
      dsimp only at h
      simp at h
    | ok b =>
      rw [henc] at h
      dsimp only at h
      refine ⟨b, ?_⟩
      by_cases hg : (normalize_path k).contains '/' = true ∧
          (split_path (normalize_path k)).1 ≠ []
      · rw [if_pos hg] at h
        cases hens2 : (ensure_directory_exists cfg fs
            ((split_path (normalize_path k)).1)).2 with
        | error e =>
          rw [hens2] at h
          dsimp only at h
          simp at h
        | ok a =>
          rw [hens2] at h
          dsimp only at h
          have hens : ensure_directory_exists cfg fs ((split_path (normalize_path k)).1)
              = ((ensure_directory_exists cfg fs ((split_path (normalize_path k)).1)).1,
                 .ok a) := by
            rw [← hens2]
          refine ⟨(ensure_directory_exists cfg fs ((split_path (normalize_path k)).1)).1,
            rfl, ⟨u, rfl⟩, writePrim_ok _ _ _ _ _ h, ?_⟩
          intro hcont hne
          rcases ensure_ok_isdir cfg fs _ _ a hens with h0 | h0 | h0
          · exact absurd h0 hne
          · exact Or.inl h0
          · exact Or.inr h0
      · rw [if_neg hg] at h
        dsimp only at h
        refine ⟨fs, rfl, ⟨u, rfl⟩, writePrim_ok _ _ _ _ _ h, ?_⟩
        intro hcont hne
        exact absurd ⟨hcont, hne⟩ hg

theorem getitem_reads_file (cfg : Config) (fs : Fs) (root k : PyStr) (bb : List Nat)
    (hchk : ∃ u, check_path_depth cfg (normalize_path k) = .ok u)
    (hfile : Fs.lookup fs (normalize_path k) = some (.file bb))
    (hdir : (normalize_path k).contains '/' = true →
      (split_path (normalize_path k)).1 ≠ [] →
      path_exists fs ((split_path (normalize_path k)).1) = true) :
    getitem cfg fs root k = readFilePrim cfg fs (normalize_path k) k := by
  obtain ⟨u, hchk⟩ := hchk
  unfold getitem
  dsimp only
  rw [hchk]
  have hid : isDir fs (normalize_path k) = false := by
    simp [isDir, hfile]
  rw [hid]
  simp only [Bool.false_and, Bool.false_eq_true, if_false]
  by_cases hc : List.contains (normalize_path k) '/' = true
  · rw [if_pos hc]
    by_cases hne : (split_path (normalize_path k)).1 = []
    · rw [if_neg (fun hab => absurd hne hab.1)]
    · rw [if_neg (fun hab => hab.2 (hdir hc hne))]
  · rw [if_neg hc]

theorem normalize_dot : normalize_path ['.'] = [] := by decide

theorem setitem_getitem_general (cfg : Config) (fs fs' : Fs) (root k : PyStr)
    (v : Value) (b : List Nat)
    (hset : setitem cfg fs k v = (fs', .ok ()))
    (hd : normalize_path ((split_path (normalize_path k)).1) =
      (split_path (normalize_path k)).1)
    (henc : encodeValue cfg v = .ok b) :
    getitem cfg fs' root k = readFilePrim cfg fs' (normalize_path k) k ∧
    Fs.lookup fs' (normalize_path k) = some (.file b) := by
  obtain ⟨b2, fs1, henc2, hchk, hfs, hdirp⟩ := setitem_ok_parts cfg fs fs' k v hset
  rw [henc] at henc2
  injection henc2 with hb
  subst hb
  have hfile : Fs.lookup fs' (normalize_path k) = some (.file b) := by
    rw [hfs]
    exact lookup_insert _ _ _
  refine ⟨?_, hfile⟩
  apply getitem_reads_file cfg fs' root k b hchk hfile
  intro hcont hne
  rcases hdirp hcont hne with hdot | hdirlk
  · rw [hdot] at hd
    exact absurd hd (by decide)
  · have hcont2 : (normalize_path (normalize_path k)).contains '/' = true := by
      rcases h2 : (normalize_path (normalize_path k)).contains '/'
      · exact absurd (split_fst_nil_of_not_contains _ h2) hne
      · rfl
    have hlt := split_fst_length_lt (normalize_path k) hcont2
    have hle := normalize_length_le (normalize_path k)
    have hnep : (split_path (normalize_path k)).1 ≠ normalize_path k := by
      intro he
      rw [he] at hlt
      omega
    unfold path_exists
    rw [hd, if_neg hne, hfs, lookup_insert_ne _ _ _ _ hnep, hdirlk]
    rfl

theorem normalize_no_bs (p : PyStr) : '\\' ∉ normalize_path p := by
  unfold normalize_path
  split
  · simp
  · intro hmem
    obtain ⟨c, _, hc⟩ := List.mem_map.mp hmem
    by_cases h : c = '\\' <;> simp [h] at hc

theorem map_repl_id (l : PyStr) (h : '\\' ∉ l) :
    l.map (fun c => if c = '\\' then '/' else c) = l := by
  induction l with
  | nil => rfl
  | cons c rest ih =>
    have hc : c ≠ '\\' := fun he => h (he ▸ List.mem_cons_self c rest)
    have hr : '\\' ∉ rest := fun hm => h (List.mem_cons_of_mem c hm)
    simp [hc, ih hr]

/-- C8 (counterexample): normalization is not idempotent.  For the path
"a\" (a trailing backslash), one normalization yields "a/" (the backslash
is converted after trailing-slash stripping), and normalizing again yields
"a". -/
theorem normalize_idempotent_counterexample :
    normalize_path "a\\".data = "a/".data ∧
    normalize_path (normalize_path "a\\".data) = "a".data ∧
    normalize_path (normalize_path "a\\".data) ≠ normalize_path "a\\".data := by
  decide

/-- C8 (amended): `normalize_path` maps "" and "." to "", and it is
idempotent on every path whose normal form is neither "." nor
slash-terminated (the failures forced by the counterexample: inputs such
as "./", or with a trailing backslash or double slash). -/
theorem normalize_idempotent_amended (p : PyStr) :
    normalize_path [] = [] ∧
    normalize_path ['.'] = [] ∧
    (normalize_path p ≠ ['.'] → (normalize_path p).getLast? ≠ some '/' →
      normalize_path (normalize_path p) = normalize_path p) := by
  refine ⟨rfl, rfl, ?_⟩
  intro h1 h2
  have hnb : '\\' ∉ normalize_path p := normalize_no_bs p
  by_cases h0 : normalize_path p = []
  · rw [h0]
    rfl
  · generalize hq : normalize_path p = q at h0 h1 h2 hnb
    unfold normalize_path
    rw [if_neg (by
      intro hor
      rcases hor with h | h
      · exact h0 h
      · exact h1 h)]
    dsimp only
    rw [if_neg h2]
    exact map_repl_id q hnb

/-- C8 witness: a concrete instantiation of the amended idempotence. -/
theorem normalize_idempotent_amended_witness :
    normalize_path (normalize_path "a/b/".data) = normalize_path "a/b/".data :=
  (normalize_idempotent_amended "a/b/".data).2.2 (by decide) (by decide)

/-- C1 (counterexample): the write-then-read round trip fails for the key
"./b" on an empty store with unlimited depth: the write succeeds (the
directory part "." is accepted by the directory-ensure step), but the
subsequent lookup of the same key fails, because the existence probe for
the directory part "." normalizes it to the empty path. -/
theorem write_read_roundtrip_counterexample :
    setitem ({ max_levels := none } : Config) [] "./b".data (.bytes [1]) =
      ([("./b".data, FsEntry.file [1])], .ok ()) ∧
    getitem ({ max_levels := none } : Config) [("./b".data, FsEntry.file [1])]
      ['.'] "./b".data =
      .error (.keyError (dirPartMissingMsg ['.'])) := by
  decide

/-- C1 (amended): write-then-read round trip, for keys whose directory
part is in normal form (ruling out the degenerate keys of the
counterexample, such as "./b").  With `encoding` unset, writing bytes `b`
to `k` and then looking up `k` returns exactly `b`; with `encoding` set,
writing string `s` and looking up `k` returns exactly `s`. -/
theorem write_read_roundtrip (cfg : Config) (fs fs' : Fs) (root k : PyStr)
    (b : List Nat) (s : PyStr)
    (hd : normalize_path ((split_path (normalize_path k)).1) =
      (split_path (normalize_path k)).1) :
    (cfg.encoding = none →
      setitem cfg fs k (.bytes b) = (fs', .ok ()) →
      getitem cfg fs' root k = .ok (.content (.bytes b))) ∧
    (∀ enc, cfg.encoding = some enc →
      setitem cfg fs k (.text s) = (fs', .ok ()) →
      getitem cfg fs' root k = .ok (.content (.text s))) := by
  constructor
  · intro he hset
    have henc : encodeValue cfg (.bytes b) = .ok b := by
      unfold encodeValue
      rw [he]
    obtain ⟨hget, hfile⟩ :=
      setitem_getitem_general cfg fs fs' root k _ b hset hd henc
    rw [hget]
    unfold readFilePrim
    rw [hfile, he]
  · intro enc he hset
    have henc : encodeValue cfg (.text s) = .ok (encodeStr s) := by
      unfold encodeValue
      rw [he]
    obtain ⟨hget, hfile⟩ :=
      setitem_getitem_general cfg fs fs' root k _ _ hset hd henc
    rw [hget]
    unfold readFilePrim
    rw [hfile, he]
    dsimp only
    rw [decode_encode]

/-- C1 witness: concrete round trips in both modes. -/
theorem write_read_roundtrip_witness :
    getitem ({} : Config) [("f".data, FsEntry.file [1, 2])] ['.'] "f".data =
      .ok (.content (.bytes [1, 2])) ∧
    getitem ({ encoding := some "utf-8" } : Config)
      [("g".data, FsEntry.file [104, 105])] ['.'] "g".data =
      .ok (.content (.text "hi".data)) :=
  ⟨(write_read_roundtrip {} [] [("f".data, FsEntry.file [1, 2])] ['.'] "f".data
      [1, 2] [] (by decide)).1 rfl (by decide),
   (write_read_roundtrip { encoding := some "utf-8" } []
      [("g".data, FsEntry.file [104, 105])] ['.'] "g".data [] "hi".data
      (by decide)).2 "utf-8" rfl (by decide)⟩

theorem check_depth_error (cfg : Config) (path : PyStr) (ml : Nat)
    (hml : cfg.max_levels = some ml)
    (hne : normalize_path path ≠ [])
    (hgt : (normalize_path path).count '/' > ml) :
    check_path_depth cfg path =
      .error (.keyError (depthMsg ((normalize_path path).count '/') ml path)) := by
  unfold check_path_depth
  rw [hml]
  dsimp only
  rw [if_neg hne, if_pos hgt]

theorem getitem_depth_error (cfg : Config) (fs : Fs) (root k : PyStr) (ml : Nat)
    (hml : cfg.max_levels = some ml)
    (hne : normalize_path (normalize_path k) ≠ [])
    (hgt : (normalize_path (normalize_path k)).count '/' > ml) :
    getitem cfg fs root k = .error (.keyError
      (depthMsg ((normalize_path (normalize_path k)).count '/') ml
        (normalize_path k))) := by
  unfold getitem
  dsimp only
  rw [check_depth_error cfg (normalize_path k) ml hml hne hgt]

theorem setitem_depth_error (cfg : Config) (fs : Fs) (k : PyStr) (v : Value)
    (ml : Nat)
    (hml : cfg.max_levels = some ml)
    (hne : normalize_path (normalize_path k) ≠ [])
    (hgt : (normalize_path (normalize_path k)).count '/' > ml) :
    setitem cfg fs k v = (fs, .error (.keyError
      (depthMsg ((normalize_path (normalize_path k)).count '/') ml
        (normalize_path k)))) := by
  unfold setitem
  dsimp only
  rw [check_depth_error cfg (normalize_path k) ml hml hne hgt]

theorem getitem_dir_disabled (cfg : Config) (fs : Fs) (root k : PyStr)
    (hda : cfg.dir_access = false)
    (hid : isDir fs (normalize_path k) = true)
    (hchk : ∃ u, check_path_depth cfg (normalize_path k) = .ok u) :
    getitem cfg fs root k = .error (.keyError (dirAccessMsg (normalize_path k))) := by
  obtain ⟨u, hchk⟩ := hchk
  unfold getitem
  dsimp only
  rw [hchk]
  rw [hid, hda]
  simp

/-- C2 (amended): with `max_levels` set, a lookup whose normalized key has
more separators than the limit fails with a `KeyError` naming the
separator count and the limit; with `max_levels=1`, `lookup("a/b/c")`
fails reporting depth 2 and limit 1, while `lookup("a/b")` (one
separator) and `lookup("a")` pass the depth check and succeed when the
path is an existing file. -/
theorem depth_enforcement_lookup (cfg : Config) (fs : Fs) (root k : PyStr)
    (ml : Nat) :
    (cfg.max_levels = some ml → normalize_path (normalize_path k) ≠ [] →
      (normalize_path (normalize_path k)).count '/' > ml →
      getitem cfg fs root k = .error (.keyError
        (depthMsg ((normalize_path (normalize_path k)).count '/') ml
          (normalize_path k)))) ∧
    getitem ({ max_levels := some 1 } : Config)
      [("a".data, FsEntry.dir), ("a/b".data, FsEntry.file [7])] ['.']
      "a/b/c".data = .error (.keyError (depthMsg 2 1 "a/b/c".data)) ∧
    getitem ({ max_levels := some 1 } : Config)
      [("a".data, FsEntry.dir), ("a/b".data, FsEntry.file [7])] ['.']
      "a/b".data = .ok (.content (.bytes [7])) ∧
    getitem ({ max_levels := some 1 } : Config)
      [("a".data, FsEntry.file [3])] ['.'] "a".data =
      .ok (.content (.bytes [3])) := by
  refine ⟨fun hml hne hgt => getitem_depth_error cfg fs root k ml hml hne hgt,
    by decide, by decide, by decide⟩

/-- C2 (counterexample): with `max_levels=1` and `a/b` an existing file,
`lookup("a/b")` does not fail (the claim says depth 2 fails), and the
failure for `"a/b/c"` reports depth 2 — the separator count — not 3. -/
theorem depth_enforcement_lookup_counterexample :
    getitem ({ max_levels := some 1 } : Config)
      [("a".data, FsEntry.dir), ("a/b".data, FsEntry.file [7])] ['.']
      "a/b".data = .ok (.content (.bytes [7])) ∧
    getitem ({ max_levels := some 1 } : Config)
      [("a".data, FsEntry.dir), ("a/b".data, FsEntry.file [7])] ['.']
      "a/b/c".data ≠ .error (.keyError
        "Path depth (3) exceeds maximum allowed depth (1): a/b/c".data) ∧
    getitem ({ max_levels := some 1 } : Config)
      [("a".data, FsEntry.dir), ("a/b".data, FsEntry.file [7])] ['.']
      "a/b/c".data = .error (.keyError
        "Path depth (2) exceeds maximum allowed depth (1): a/b/c".data) := by
  decide

/-- C2 witness: the general depth-failure clause at a concrete input. -/
theorem depth_enforcement_lookup_witness :
    getitem ({ max_levels := some 0 } : Config) [] ['.'] "x/y".data =
      .error (.keyError (depthMsg 1 0 "x/y".data)) :=
  (depth_enforcement_lookup ({ max_levels := some 0 } : Config) [] ['.']
    "x/y".data 0).1 rfl (by decide) (by decide)

theorem contains_strict_depth_error (cfg : Config) (fs : Fs) (k : PyStr)
    (ml : Nat)
    (hs : cfg.strict_contains = true)
    (hml : cfg.max_levels = some ml)
    (hgt : (normalize_path k).count '/' > ml)
    (hne : normalize_path (normalize_path k) ≠ [])
    (hgt2 : (normalize_path (normalize_path k)).count '/' > ml) :
    containsOp cfg fs k = .error (.keyError
      (depthMsg ((normalize_path (normalize_path k)).count '/') ml
        (normalize_path k))) := by
  unfold containsOp
  rw [hml]
  dsimp only
  rw [if_pos hgt, if_pos hs]
  rw [check_depth_error cfg (normalize_path k) ml hml hne hgt2]

theorem contains_nonstrict_overdeep (cfg : Config) (fs : Fs) (k : PyStr)
    (ml : Nat)
    (hs : cfg.strict_contains = false)
    (hml : cfg.max_levels = some ml)
    (hgt : (normalize_path k).count '/' > ml) :
    containsOp cfg fs k = .ok false := by
  unfold containsOp
  rw [hml]
  dsimp only
  rw [if_pos hgt, hs]
  simp

/-- C3 (amended): after normalization, lookup and write reject over-deep
keys with the depth `KeyError`; containment rejects them only in strict
mode and returns false in non-strict mode; delete performs no depth check
at all — its behavior is independent of `max_levels`, and it deletes an
existing over-deep key. -/
theorem depth_invariant_amended (cfg : Config) (fs : Fs) (root k : PyStr)
    (v : Value) (ml : Nat) :
    (cfg.max_levels = some ml → normalize_path (normalize_path k) ≠ [] →
      (normalize_path (normalize_path k)).count '/' > ml →
      getitem cfg fs root k = .error (.keyError
        (depthMsg ((normalize_path (normalize_path k)).count '/') ml
          (normalize_path k))) ∧
      setitem cfg fs k v = (fs, .error (.keyError
        (depthMsg ((normalize_path (normalize_path k)).count '/') ml
          (normalize_path k))))) ∧
    (cfg.strict_contains = false → cfg.max_levels = some ml →
      (normalize_path k).count '/' > ml → containsOp cfg fs k = .ok false) ∧
    (∀ ml2, delitem { cfg with max_levels := ml2 } fs k = delitem cfg fs k) ∧
    delitem ({ max_levels := some 0 } : Config)
      [("a".data, FsEntry.dir), ("a/b".data, FsEntry.file [7])] "a/b".data =
      ([("a".data, FsEntry.dir)], .ok ()) := by
  refine ⟨fun hml hne hgt =>
      ⟨getitem_depth_error cfg fs root k ml hml hne hgt,
       setitem_depth_error cfg fs k v ml hml hne hgt⟩,
    fun hs hml hgt => contains_nonstrict_overdeep cfg fs k ml hs hml hgt,
    fun ml2 => rfl, by decide⟩

/-- C3 (counterexample): `__delitem__` never checks the depth: with
`max_levels=0`, deleting the existing depth-1 key "a/b" succeeds instead
of being rejected. -/
theorem depth_invariant_counterexample :
    delitem ({ max_levels := some 0 } : Config)
      [("a".data, FsEntry.dir), ("a/b".data, FsEntry.file [7])] "a/b".data =
      ([("a".data, FsEntry.dir)], .ok ()) ∧
    (∀ e, delitem ({ max_levels := some 0 } : Config)
      [("a".data, FsEntry.dir), ("a/b".data, FsEntry.file [7])] "a/b".data ≠
      ([("a".data, FsEntry.dir), ("a/b".data, FsEntry.file [7])],
        .error (.keyError e))) := by
  constructor
  · decide
  · intro e h
    have h2 := congrArg Prod.snd h
    have h3 : (delitem ({ max_levels := some 0 } : Config)
        [("a".data, FsEntry.dir), ("a/b".data, FsEntry.file [7])]
        "a/b".data).2 = .ok () := by decide
    rw [h3] at h2
    simp at h2

/-- C3 witness: the depth rejection clauses at concrete inputs. -/
theorem depth_invariant_witness :
    setitem ({ max_levels := some 0 } : Config) [] "x/y".data (.bytes []) =
      ([], .error (.keyError (depthMsg 1 0 "x/y".data))) ∧
    containsOp ({ max_levels := some 0 } : Config) [] "x/y".data = .ok false :=
  ⟨((depth_invariant_amended ({ max_levels := some 0 } : Config) [] ['.']
      "x/y".data (.bytes []) 0).1 rfl (by decide) (by decide)).2,
   (depth_invariant_amended ({ max_levels := some 0 } : Config) [] ['.']
      "x/y".data (.bytes []) 0).2.1 rfl rfl (by decide)⟩

/-- C4: with `dir_access=false`, a lookup that resolves to a directory
fails with the directory-access-disabled `KeyError`, while the same
directory is still yielded (with a trailing slash) by iteration when
`include_directories` is true. -/
theorem dir_access_gating (cfg : Config) (fs : Fs) (root k : PyStr) :
    (cfg.dir_access = false → isDir fs (normalize_path k) = true →
      (∃ u, check_path_depth cfg (normalize_path k) = .ok u) →
      getitem cfg fs root k =
        .error (.keyError (dirAccessMsg (normalize_path k)))) ∧
    getitem ({ dir_access := false } : Config) [("a".data, FsEntry.dir)] ['.']
      "a/".data = .error (.keyError (dirAccessMsg "a".data)) ∧
    iterKeys ({ dir_access := false } : Config) [("a".data, FsEntry.dir)] =
      ["a/".data] := by
  refine ⟨fun hda hid hchk => getitem_dir_disabled cfg fs root k hda hid hchk,
    by decide, by decide⟩

/-- C4 witness: the general gating clause at a concrete input. -/
theorem dir_access_gating_witness :
    getitem ({ dir_access := false } : Config) [("z".data, FsEntry.dir)] ['.']
      "z".data = .error (.keyError (dirAccessMsg "z".data)) :=
  (dir_access_gating ({ dir_access := false } : Config)
    [("z".data, FsEntry.dir)] ['.'] "z".data).1 rfl (by decide)
    ⟨true, by decide⟩

/-- C7: containment raises only in strict mode on over-deep keys (part 1:
any raised error implies strict mode and a violated limit), returns false
for over-deep keys in non-strict mode, and otherwise delegates to the
remote existence probe; the spec's concrete instances are included. -/
theorem contains_depth_behavior (cfg : Config) (fs : Fs) (k : PyStr)
    (ml : Nat) :
    (∀ e, containsOp cfg fs k = .error e →
      cfg.strict_contains = true ∧
      ∃ m, cfg.max_levels = some m ∧ (normalize_path k).count '/' > m) ∧
    (cfg.strict_contains = false → cfg.max_levels = some ml →
      (normalize_path k).count '/' > ml → containsOp cfg fs k = .ok false) ∧
    (cfg.max_levels = none →
      containsOp cfg fs k = .ok (path_exists fs (normalize_path k))) ∧
    (cfg.max_levels = some ml → (normalize_path k).count '/' ≤ ml →
      containsOp cfg fs k = .ok (path_exists fs (normalize_path k))) ∧
    containsOp ({ max_levels := some 1 } : Config) [] "a/b/c".data =
      .ok false ∧
    containsOp ({ max_levels := some 1, strict_contains := true } : Config)
      [] "a/b/c".data = .error (.keyError (depthMsg 2 1 "a/b/c".data)) := by
  refine ⟨?_, ?_, ?_, ?_, by decide, by decide⟩
  · intro e h
    unfold containsOp at h
    cases hml2 : cfg.max_levels with
    | none =>
      rw [hml2] at h
      dsimp only at h
      simp at h
    | some m =>
      rw [hml2] at h
      dsimp only at h
      by_cases hgt : (normalize_path k).count '/' > m
      · rw [if_pos hgt] at h
        cases hs : cfg.strict_contains with
        | false =>
          rw [hs] at h
          simp at h
        | true =>
          exact ⟨rfl, m, rfl, hgt⟩
      · rw [if_neg hgt] at h
        simp at h
  · intro hs hml hgt
    exact contains_nonstrict_overdeep cfg fs k ml hs hml hgt
  · intro hml
    unfold containsOp
    rw [hml]
  · intro hml hle
    unfold containsOp
    rw [hml]
    dsimp only
    rw [if_neg (by omega)]

/-- C7 witness: the delegation and non-strict clauses at concrete inputs. -/
theorem contains_depth_behavior_witness :
    containsOp ({ max_levels := some 0 } : Config)
      [("a".data, FsEntry.file [1])] "a".data = .ok true ∧
    containsOp ({ max_levels := some 0 } : Config) [] "p/q".data = .ok false :=
  ⟨by
    have h := (contains_depth_behavior ({ max_levels := some 0 } : Config)
      [("a".data, FsEntry.file [1])] "a".data 0).2.2.2.1 rfl (by decide)
    rw [h]
    decide,
   (contains_depth_behavior ({ max_levels := some 0 } : Config) [] "p/q".data
      0).2.1 rfl rfl (by decide)⟩

theorem delitem_not_found (cfg : Config) (fs : Fs) (k : PyStr)
    (hne : path_exists fs (normalize_path k) = false) :
    delitem cfg fs k = (fs, .error (.keyError k)) := by
  unfold delitem
  dsimp only
  rw [hne]
  simp

theorem delitem_nonempty_dir (cfg : Config) (fs : Fs) (k : PyStr)
    (hpe : path_exists fs (normalize_path k) = true)
    (hid : isDir fs (normalize_path k) = true)
    (hl : list_directory cfg fs (normalize_path k) ≠ []) :
    delitem cfg fs k = (fs, .error (.keyError (notEmptyMsg (normalize_path k)))) := by
  unfold delitem
  dsimp only
  rw [hpe, hid]
  cases hll : list_directory cfg fs (normalize_path k) with
  | nil => exact absurd hll hl
  | cons a as => simp

theorem list_directory_nil_of_children_nil (cfg : Config) (fs : Fs) (p : PyStr)
    (hchild : childNamesAll fs p = []) :
    list_directory cfg fs p = [] := by
  unfold list_directory
  rw [hchild]
  cases cfg.include_hidden <;> simp

theorem delitem_empty_dir (cfg : Config) (fs : Fs) (k : PyStr)
    (hpe : path_exists fs (normalize_path k) = true)
    (hid : isDir fs (normalize_path k) = true)
    (hchild : childNamesAll fs (normalize_path k) = []) :
    delitem cfg fs k = (Fs.eraseKey fs (normalize_path k), .ok ()) := by
  unfold delitem
  dsimp only
  rw [hpe, hid, list_directory_nil_of_children_nil cfg fs _ hchild, hchild]
  simp

theorem delitem_file (cfg : Config) (fs : Fs) (k : PyStr)
    (hpe : path_exists fs (normalize_path k) = true)
    (hid : isDir fs (normalize_path k) = false) :
    delitem cfg fs k = (Fs.eraseKey fs (normalize_path k), .ok ()) := by
  unfold delitem
  dsimp only
  rw [hpe, hid]
  simp

/-- C6 (amended): delete fails with `KeyError(k)` when the path does not
exist; a directory whose (hidden-filtered) listing is non-empty fails with
the non-empty-directory error; a directory with no entries at all, or a
file, is removed directly; deleting the children first and then the
directory succeeds (concrete scenario included).  A directory whose only
entries are hidden (with `include_hidden=false`) instead fails with the
generic wrapped delete error — see the counterexample. -/
theorem delete_semantics (cfg : Config) (fs : Fs) (k : PyStr) :
    (path_exists fs (normalize_path k) = false →
      delitem cfg fs k = (fs, .error (.keyError k))) ∧
    (path_exists fs (normalize_path k) = true →
      isDir fs (normalize_path k) = true →
      list_directory cfg fs (normalize_path k) ≠ [] →
      delitem cfg fs k =
        (fs, .error (.keyError (notEmptyMsg (normalize_path k))))) ∧
    (path_exists fs (normalize_path k) = true →
      isDir fs (normalize_path k) = true →
      childNamesAll fs (normalize_path k) = [] →
      delitem cfg fs k = (Fs.eraseKey fs (normalize_path k), .ok ())) ∧
    (path_exists fs (normalize_path k) = true →
      isDir fs (normalize_path k) = false →
      delitem cfg fs k = (Fs.eraseKey fs (normalize_path k), .ok ())) ∧
    delitem ({} : Config) [("d".data, FsEntry.dir), ("d/x".data, FsEntry.file [])]
      "d".data =
      ([("d".data, FsEntry.dir), ("d/x".data, FsEntry.file [])],
        .error (.keyError (notEmptyMsg "d".data))) ∧
    delitem ({} : Config) [("d".data, FsEntry.dir), ("d/x".data, FsEntry.file [])]
      "d/x".data = ([("d".data, FsEntry.dir)], .ok ()) ∧
    delitem ({} : Config) [("d".data, FsEntry.dir)] "d".data = ([], .ok ()) := by
  exact ⟨delitem_not_found cfg fs k,
    delitem_nonempty_dir cfg fs k,
    delitem_empty_dir cfg fs k,
    delitem_file cfg fs k,
    by decide, by decide, by decide⟩

/-- C6 (counterexample): a directory whose only entry is hidden (with
`include_hidden=false`) has entries, yet its deletion does not fail with
the non-empty-directory error (and does not succeed either): the filtered
listing is empty, so the code attempts `rmdir`, whose remote failure is
wrapped as the generic delete error. -/
theorem delete_semantics_counterexample :
    (delitem ({} : Config)
      [("d".data, FsEntry.dir), ("d/.h".data, FsEntry.file [])] "d".data).2 ≠
      .ok () ∧
    (delitem ({} : Config)
      [("d".data, FsEntry.dir), ("d/.h".data, FsEntry.file [])] "d".data).2 ≠
      .error (.keyError (notEmptyMsg "d".data)) ∧
    (delitem ({} : Config)
      [("d".data, FsEntry.dir), ("d/.h".data, FsEntry.file [])] "d".data).2 =
      .error (.keyError (delGenericMsg "d".data)) := by
  decide

/-- C6 witness: the general clauses at concrete inputs. -/
theorem delete_semantics_witness :
    delitem ({} : Config) [] "q".data = ([], .error (.keyError "q".data)) ∧
    delitem ({} : Config) [("q".data, FsEntry.file [5])] "q".data =
      ([], .ok ()) :=
  ⟨(delete_semantics ({} : Config) [] "q".data).1 (by decide),
   (delete_semantics ({} : Config) [("q".data, FsEntry.file [5])]
      "q".data).2.2.2.1 (by decide) (by decide)⟩

theorem ensure_missing_dir (cfg : Config) (fs : Fs) (d : PyStr)
    (hcd : cfg.create_dirs = false)
    (h1 : d ≠ []) (h2 : d ≠ ['.'])
    (hlk : Fs.lookup fs d = none) :
    ensure_directory_exists cfg fs d = (fs, .error (.keyError (missingDirMsg d))) := by
  unfold ensure_directory_exists ensureFuel
  rw [if_neg (by
    intro hor
    rcases hor with h | h
    · exact h1 h
    · exact h2 h)]
  rw [hlk]
  dsimp only
  rw [hcd]
  simp

theorem ensure_conflict (cfg : Config) (fs : Fs) (d : PyStr) (c : List Nat)
    (h1 : d ≠ []) (h2 : d ≠ ['.'])
    (hlk : Fs.lookup fs d = some (.file c)) :
    ensure_directory_exists cfg fs d =
      (fs, .error (.keyError (pathConflictMsg d))) := by
  unfold ensure_directory_exists ensureFuel
  rw [if_neg (by
    intro hor
    rcases hor with h | h
    · exact h1 h
    · exact h2 h)]
  rw [hlk]

theorem setitem_ensure_error (cfg : Config) (fs fs2 : Fs) (k : PyStr) (v : Value)
    (b : List Nat) (u : Bool) (e : Err)
    (hchk : check_path_depth cfg (normalize_path k) = .ok u)
    (henc : encodeValue cfg v = .ok b)
    (hcont : (normalize_path k).contains '/' = true)
    (hne : (split_path (normalize_path k)).1 ≠ [])
    (hens : ensure_directory_exists cfg fs ((split_path (normalize_path k)).1)
      = (fs2, .error e)) :
    setitem cfg fs k v = (fs2, .error e) := by
  unfold setitem
  dsimp only
  rw [hchk]
  dsimp only
  rw [henc]
  dsimp only
  rw [if_pos ⟨hcont, hne⟩, hens]

theorem dirpart_ne_path (k : PyStr)
    (hne : (split_path (normalize_path k)).1 ≠ []) :
    (split_path (normalize_path k)).1 ≠ normalize_path k := by
  have hcont2 : (normalize_path (normalize_path k)).contains '/' = true := by
    rcases h2 : (normalize_path (normalize_path k)).contains '/'
    · exact absurd (split_fst_nil_of_not_contains _ h2) hne
    · rfl
  have hlt := split_fst_length_lt (normalize_path k) hcont2
  have hle := normalize_length_le (normalize_path k)
  intro he
  rw [he] at hlt
  omega

theorem mkdirPrim_fails_exists (fs : Fs) (p : PyStr)
    (h : (Fs.lookup fs p).isSome = true) :
    mkdirPrim fs p = (fs, .error (.keyError (mkdirFailMsg p))) := by
  unfold mkdirPrim
  rw [if_pos h]

/-- C5: write-time directory materialization.  When `create_dirs` is
false and the directory part of a multi-segment key is missing, the write
fails with the missing-directory error; when the directory part exists as
a file, it fails with the path-conflict error; a `mkdir` on an existing
path fails with the wrapped creation error; a successful write leaves the
file stored and its directory part existing as a directory; and the
end-to-end scenario `write("x/y/z.txt")` with `create_dirs=true,
max_levels=None` creates `x` and `x/y` and iteration lists
`x/`, `x/y/`, `x/y/z.txt`. -/
theorem write_dir_materialization (cfg : Config) (fs fs' : Fs) (k : PyStr)
    (v : Value) (b : List Nat) (u : Bool) (c : List Nat) :
    (cfg.create_dirs = false →
      check_path_depth cfg (normalize_path k) = .ok u →
      encodeValue cfg v = .ok b →
      (normalize_path k).contains '/' = true →
      (split_path (normalize_path k)).1 ≠ [] →
      (split_path (normalize_path k)).1 ≠ ['.'] →
      Fs.lookup fs ((split_path (normalize_path k)).1) = none →
      setitem cfg fs k v =
        (fs, .error (.keyError (missingDirMsg ((split_path (normalize_path k)).1))))) ∧
    (check_path_depth cfg (normalize_path k) = .ok u →
      encodeValue cfg v = .ok b →
      (normalize_path k).contains '/' = true →
      (split_path (normalize_path k)).1 ≠ [] →
      (split_path (normalize_path k)).1 ≠ ['.'] →
      Fs.lookup fs ((split_path (normalize_path k)).1) = some (.file c) →
      setitem cfg fs k v =
        (fs, .error (.keyError (pathConflictMsg ((split_path (normalize_path k)).1))))) ∧
    ((Fs.lookup fs k).isSome = true →
      mkdirPrim fs k = (fs, .error (.keyError (mkdirFailMsg k)))) ∧
    (setitem cfg fs k v = (fs', .ok ()) → encodeValue cfg v = .ok b →
      Fs.lookup fs' (normalize_path k) = some (.file b) ∧
      ((normalize_path k).contains '/' = true →
        (split_path (normalize_path k)).1 ≠ [] →
        isDir fs' ((split_path (normalize_path k)).1) = true ∨
        (split_path (normalize_path k)).1 = ['.'])) ∧
    (setitem ({ max_levels := none, create_dirs := true } : Config) []
      "x/y/z.txt".data (.bytes [118]) =
      ([("x/y/z.txt".data, FsEntry.file [118]), ("x/y".data, FsEntry.dir),
        ("x".data, FsEntry.dir)], .ok ()) ∧
     "x/".data ∈ iterKeys ({ max_levels := none, create_dirs := true } : Config)
       [("x/y/z.txt".data, FsEntry.file [118]), ("x/y".data, FsEntry.dir),
        ("x".data, FsEntry.dir)] ∧
     "x/y/".data ∈ iterKeys ({ max_levels := none, create_dirs := true } : Config)
       [("x/y/z.txt".data, FsEntry.file [118]), ("x/y".data, FsEntry.dir),
        ("x".data, FsEntry.dir)] ∧
     "x/y/z.txt".data ∈ iterKeys
       ({ max_levels := none, create_dirs := true } : Config)
       [("x/y/z.txt".data, FsEntry.file [118]), ("x/y".data, FsEntry.dir),
        ("x".data, FsEntry.dir)]) := by
  refine ⟨?_, ?_, mkdirPrim_fails_exists fs k, ?_, by decide⟩
  · intro hcd hchk henc hcont hne hdot hlk
    exact setitem_ensure_error cfg fs fs k v b u _ hchk henc hcont hne
      (ensure_missing_dir cfg fs _ hcd hne hdot hlk)
  · intro hchk henc hcont hne hdot hlk
    exact setitem_ensure_error cfg fs fs k v b u _ hchk henc hcont hne
      (ensure_conflict cfg fs _ c hne hdot hlk)
  · intro hset henc
    obtain ⟨b2, fs1, henc2, hchk2, hfs, hdirp⟩ := setitem_ok_parts cfg fs fs' k v hset
    rw [henc] at henc2
    injection henc2 with hb
    subst hb
    constructor
    · rw [hfs]
      exact lookup_insert _ _ _
    · intro hcont hne
      rcases hdirp hcont hne with hdot | hdirlk
      · exact Or.inr hdot
      · refine Or.inl ?_
        rw [hfs]
        unfold isDir
        rw [lookup_insert_ne _ _ _ _ (dirpart_ne_path k hne), hdirlk]

/-- C5 witness: the missing-directory and path-conflict clauses at
concrete inputs. -/
theorem write_dir_materialization_witness :
    setitem ({ max_levels := none } : Config) [] "a/b".data (.bytes [9]) =
      ([], .error (.keyError (missingDirMsg "a".data))) ∧
    setitem ({ max_levels := none, create_dirs := true } : Config)
      [("a".data, FsEntry.file [1])] "a/b".data (.bytes [9]) =
      ([("a".data, FsEntry.file [1])],
        .error (.keyError (pathConflictMsg "a".data))) :=
  ⟨(write_dir_materialization ({ max_levels := none } : Config) [] [] "a/b".data
      (.bytes [9]) [9] true []).1 rfl (by decide) (by decide) (by decide)
      (by decide) (by decide) (by decide),
   (write_dir_materialization ({ max_levels := none, create_dirs := true } : Config)
      [("a".data, FsEntry.file [1])] [] "a/b".data (.bytes [9]) [9] true
      [1]).2.1 (by decide) (by decide) (by decide) (by decide) (by decide)
      (by decide)⟩

/-- C10: `mkdir` returns its child node by an ordinary lookup of the new
directory path, so with `dir_access=false` a call that creates the
directory (or, with `exist_ok`, finds it) still raises the
directory-access-disabled `KeyError` afterwards: the directory is present
in the resulting remote state, yet the call errors (no rollback). -/
theorem mkdir_dir_access_disabled (cfg : Config) (fs : Fs) (root p : PyStr)
    (u : Bool) :
    (cfg.dir_access = false →
      normalize_path (normalize_path p) = normalize_path p →
      normalize_path p ≠ [] →
      check_path_depth cfg (normalize_path p) = .ok u →
      Fs.lookup fs (normalize_path p) = none →
      (split_path (normalize_path p)).1 = [] →
      mkdirOp cfg fs root p false =
        (Fs.insert fs (normalize_path p) .dir,
         .error (.keyError (dirAccessMsg (normalize_path p))))) ∧
    (cfg.dir_access = false →
      normalize_path (normalize_path p) = normalize_path p →
      normalize_path p ≠ [] →
      check_path_depth cfg (normalize_path p) = .ok u →
      Fs.lookup fs (normalize_path p) = some .dir →
      mkdirOp cfg fs root p true =
        (fs, .error (.keyError (dirAccessMsg (normalize_path p))))) := by
  constructor
  · intro hda hcan hne hchk hlk hdp
    have hpe : path_exists fs (normalize_path p) = false := by
      unfold path_exists
      rw [hcan, if_neg hne, hlk]
      rfl
    have hget : getitem cfg (Fs.insert fs (normalize_path p) .dir) root
        (normalize_path p) =
        .error (.keyError (dirAccessMsg (normalize_path p))) := by
      have hid : isDir (Fs.insert fs (normalize_path p) .dir)
          (normalize_path (normalize_path p)) = true := by
        rw [hcan]
        unfold isDir
        rw [lookup_insert]
      have := getitem_dir_disabled cfg (Fs.insert fs (normalize_path p) .dir)
        root (normalize_path p) hda hid ⟨u, by rw [hcan]; exact hchk⟩
      rw [this, hcan]
    unfold mkdirOp
    dsimp only
    rw [hpe]
    simp only [Bool.false_eq_true, if_false]
    rw [hdp]
    rw [if_neg (by simp)]
    dsimp only
    unfold mkdirPrim
    rw [hlk]
    have hpar : parentOkForCreate fs (normalize_path p) = true := by
      unfold parentOkForCreate
      rw [hdp]
      rfl
    simp only [hpar, Option.isSome_none, Bool.false_eq_true, Bool.not_true,
      if_false]
    rw [hget]
  · intro hda hcan hne hchk hlk
    have hpe : path_exists fs (normalize_path p) = true := by
      unfold path_exists
      rw [hcan, if_neg hne, hlk]
      rfl
    have hid0 : isDir fs (normalize_path p) = true := by
      unfold isDir
      rw [hlk]
    have hget : getitem cfg fs root (normalize_path p) =
        .error (.keyError (dirAccessMsg (normalize_path p))) := by
      have hid : isDir fs (normalize_path (normalize_path p)) = true := by
        rw [hcan]
        exact hid0
      have := getitem_dir_disabled cfg fs root (normalize_path p) hda hid
        ⟨u, by rw [hcan]; exact hchk⟩
      rw [this, hcan]
    unfold mkdirOp
    dsimp only
    rw [hpe, hid0]
    simp only [Bool.not_true, Bool.false_eq_true, if_false, if_true]
    rw [hget]

/-- C10 witness: both clauses at concrete inputs. -/
theorem mkdir_dir_access_disabled_witness :
    mkdirOp ({ dir_access := false } : Config) [] ['.'] "n".data false =
      ([("n".data, FsEntry.dir)],
        .error (.keyError (dirAccessMsg "n".data))) ∧
    mkdirOp ({ dir_access := false } : Config) [("n".data, FsEntry.dir)] ['.']
      "n".data true =
      ([("n".data, FsEntry.dir)],
        .error (.keyError (dirAccessMsg "n".data))) := by
  constructor
  · have h := (mkdir_dir_access_disabled ({ dir_access := false } : Config) []
      ['.'] "n".data true).1 rfl (by decide) (by decide) (by decide) rfl
      (by decide)
    rw [show normalize_path "n".data = "n".data from by decide] at h
    rw [show Fs.insert [] "n".data FsEntry.dir = [("n".data, FsEntry.dir)]
      from by decide] at h
    exact h
  · have h := (mkdir_dir_access_disabled ({ dir_access := false } : Config)
      [("n".data, FsEntry.dir)] ['.'] "n".data true).2 rfl (by decide)
      (by decide) (by decide) (by decide)
    rw [show normalize_path "n".data = "n".data from by decide] at h
    exact h

theorem len_filterMap {α β : Type} (l : List α) (f : α → Option β) :
    (l.filterMap f).length = l.countP (fun x => (f x).isSome) := by
  induction l with
  | nil => rfl
  | cons a rest ih =>
    rw [List.filterMap_cons, List.countP_cons]
    cases hf : f a with
    | none => simp [hf, ih]
    | some b => simp [hf, ih]

theorem dedupAux_eq_self (l : List PyStr) (seen : List PyStr)
    (hnd : l.Nodup) (hdis : ∀ x ∈ l, x ∉ seen) :
    dedupAux l seen = l := by
  induction l generalizing seen with
  | nil => rfl
  | cons a rest ih =>
    unfold dedupAux
    rw [if_neg (hdis a (List.mem_cons_self a rest))]
    rw [ih (a :: seen) (List.nodup_cons.mp hnd).2]
    intro x hx
    intro hmem
    rcases List.mem_cons.mp hmem with h | h
    · exact (List.nodup_cons.mp hnd).1 (h ▸ hx)
    · exact hdis x (List.mem_cons_of_mem a hx) h

theorem dedupFirst_eq_self (l : List PyStr) (hnd : l.Nodup) :
    dedupFirst l = l :=
  dedupAux_eq_self l [] hnd (fun x _ h => (List.not_mem_nil x) h)

theorem lookup_of_mem_nodup (fs : Fs) (kv : PyStr × FsEntry)
    (hnd : (fs.map Prod.fst).Nodup) (hmem : kv ∈ fs) :
    Fs.lookup fs kv.1 = some kv.2 := by
  induction fs with
  | nil => exact absurd hmem (List.not_mem_nil kv)
  | cons kv2 rest ih =>
    rw [List.map_cons, List.nodup_cons] at hnd
    rcases List.mem_cons.mp hmem with h | h
    · subst h
      simp [Fs.lookup]
    · have hne : kv.1 ≠ kv2.1 := by
        intro he
        exact hnd.1 (he ▸ List.mem_map_of_mem Prod.fst h)
      unfold Fs.lookup
      rw [if_neg hne]
      exact ih hnd.2 h

theorem nodup_filterMap_keyish (fs : Fs) (F : PyStr × FsEntry → Option PyStr)
    (hF : ∀ kv, F kv = none ∨ F kv = some kv.1 ∨ F kv = some (kv.1 ++ ['/']))
    (hnd : (fs.map Prod.fst).Nodup)
    (hwf : ∀ kv ∈ fs, kv.1.getLast? ≠ some '/') :
    (fs.filterMap F).Nodup := by
  induction fs with
  | nil => simp
  | cons kv rest ih =>
    rw [List.map_cons, List.nodup_cons] at hnd
    have ihr := ih hnd.2 (fun kv2 h2 => hwf kv2 (List.mem_cons_of_mem kv h2))
    have hnew : ∀ z, F kv = some z → z ∉ rest.filterMap F := by
      intro z hz hmem
      obtain ⟨kv2, hkv2, hFkv2⟩ := List.mem_filterMap.mp hmem
      rcases hF kv with h0 | h0 | h0 <;> rw [h0] at hz
      · exact Option.noConfusion hz
      · rcases hF kv2 with h1 | h1 | h1 <;> rw [h1] at hFkv2
        · exact Option.noConfusion hFkv2
        · injection hz with hz
          injection hFkv2 with hFkv2
          apply hnd.1
          have h2 : kv2.1 = kv.1 := hFkv2.trans hz.symm
          exact h2 ▸ List.mem_map_of_mem Prod.fst hkv2
        · injection hz with hz
          injection hFkv2 with hFkv2
          apply hwf kv (List.mem_cons_self kv rest)
          rw [hz, ← hFkv2, List.getLast?_concat]
      · rcases hF kv2 with h1 | h1 | h1 <;> rw [h1] at hFkv2
        · exact Option.noConfusion hFkv2
        · injection hz with hz
          injection hFkv2 with hFkv2
          apply hwf kv2 (List.mem_cons_of_mem kv hkv2)
          rw [hFkv2, ← hz, List.getLast?_concat]
        · injection hz with hz
          injection hFkv2 with hFkv2
          apply hnd.1
          have : kv2.1 = kv.1 := by
            have := hFkv2.trans hz.symm
            exact List.append_cancel_right this
          exact this ▸ List.mem_map_of_mem Prod.fst hkv2
    rw [List.filterMap_cons]
    rcases hF kv with h0 | h0 | h0 <;> rw [h0]
    · exact ihr
    · exact List.nodup_cons.mpr ⟨hnew kv.1 h0, ihr⟩
    · exact List.nodup_cons.mpr ⟨hnew (kv.1 ++ ['/']) h0, ihr⟩

def WfFs (fs : Fs) : Prop :=
  (fs.map Prod.fst).Nodup ∧ ∀ kv ∈ fs, kv.1 ≠ [] ∧ kv.1.getLast? ≠ some '/'

theorem hasDotAfterSlash_of_no_slash (k : PyStr) (h : k.contains '/' = false) :
    hasDotAfterSlash k = false := by
  induction k with
  | nil => rfl
  | cons c rest ih =>
    have hmem : ¬ '/' ∈ (c :: rest) := by simpa [List.contains] using h
    have hc : c ≠ '/' := fun he => hmem (he ▸ List.mem_cons_self c rest)
    have hr : rest.contains '/' = false := by
      simp only [List.contains] at h ⊢
      simp only [List.elem_eq_mem] at h ⊢
      simp at h ⊢
      exact fun hm => hmem (List.mem_cons_of_mem c hm)
    unfold hasDotAfterSlash
    rw [ih hr]
    simp [fun he => hc he]

theorem isHiddenPath_no_slash (k : PyStr) (h : k.contains '/' = false) :
    isHiddenPath k = hiddenName k := by
  unfold isHiddenPath
  rw [hasDotAfterSlash_of_no_slash k h]
  simp

theorem walk_iter_isSome (cfg : Config) (ml : Option Nat)
    (kv : PyStr × FsEntry) :
    ((if keepWalk cfg ml kv.1 then
        some (kv.1, decide (kv.2 = FsEntry.dir)) else none).bind
      (fun pd : PyStr × Bool =>
        if pd.2 then
          if cfg.include_directories then some (pd.1 ++ ['/']) else none
        else some pd.1)).isSome =
      (keepWalk cfg ml kv.1 &&
        (cfg.include_directories || !(decide (kv.2 = FsEntry.dir)))) := by
  by_cases hk : keepWalk cfg ml kv.1 = true
  · rw [if_pos hk, hk]
    cases hd : kv.2 <;>
      cases hi : cfg.include_directories <;>
        simp [Option.bind]
  · rw [if_neg hk]
    rw [Bool.eq_false_iff.mpr hk]
    simp

theorem len_eq_iter_walk (cfg : Config) (fs : Fs) (ml : Option Nat)
    (hml : cfg.max_levels = ml)
    (hnd : (fs.map Prod.fst).Nodup)
    (hwf : ∀ kv ∈ fs, kv.1.getLast? ≠ some '/') :
    lenOp cfg fs =
      (dedupFirst ((walkList cfg fs ml).filterMap
        (fun pd : PyStr × Bool =>
          if pd.2 then
            if cfg.include_directories then some (pd.1 ++ ['/']) else none
          else some pd.1))).length := by
  have hcomp : (walkList cfg fs ml).filterMap
      (fun pd : PyStr × Bool =>
        if pd.2 then
          if cfg.include_directories then some (pd.1 ++ ['/']) else none
        else some pd.1) =
      fs.filterMap (fun kv =>
        (if keepWalk cfg ml kv.1 then
          some (kv.1, decide (kv.2 = FsEntry.dir)) else none).bind
        (fun pd : PyStr × Bool =>
          if pd.2 then
            if cfg.include_directories then some (pd.1 ++ ['/']) else none
          else some pd.1)) := by
    unfold walkList
    rw [List.filterMap_filterMap]
  rw [hcomp]
  have hF : ∀ kv : PyStr × FsEntry,
      ((fun kv : PyStr × FsEntry =>
        (if keepWalk cfg ml kv.1 then
          some (kv.1, decide (kv.2 = FsEntry.dir)) else none).bind
        (fun pd : PyStr × Bool =>
          if pd.2 then
            if cfg.include_directories then some (pd.1 ++ ['/']) else none
          else some pd.1)) kv) = none ∨
      ((fun kv : PyStr × FsEntry =>
        (if keepWalk cfg ml kv.1 then
          some (kv.1, decide (kv.2 = FsEntry.dir)) else none).bind
        (fun pd : PyStr × Bool =>
          if pd.2 then
            if cfg.include_directories then some (pd.1 ++ ['/']) else none
          else some pd.1)) kv) = some kv.1 ∨
      ((fun kv : PyStr × FsEntry =>
        (if keepWalk cfg ml kv.1 then
          some (kv.1, decide (kv.2 = FsEntry.dir)) else none).bind
        (fun pd : PyStr × Bool =>
          if pd.2 then
            if cfg.include_directories then some (pd.1 ++ ['/']) else none
          else some pd.1)) kv) = some (kv.1 ++ ['/']) := by
    intro kv
    dsimp only
    by_cases hk : keepWalk cfg ml kv.1 = true
    · rw [if_pos hk]
      cases hd : kv.2 <;> cases hi : cfg.include_directories <;>
        simp [Option.bind]
    · rw [if_neg hk]
      exact Or.inl rfl
  rw [dedupFirst_eq_self _ (nodup_filterMap_keyish fs _ hF hnd hwf)]
  rw [len_filterMap]
  unfold lenOp
  rw [hml]
  rw [← List.countP_eq_length_filter]
  apply congrArg (fun p => List.countP p fs)
  funext kv
  rw [walk_iter_isSome cfg ml kv]

def optFilter {β : Type} (p : β → Bool) : Option β → Option β
  | some b => if p b then some b else none
  | none => none

def optContribution {β : Type} (g : β → Nat) : Option β → Nat
  | some y => g y
  | none => 0

theorem optFilter_some {β : Type} (p : β → Bool) (b : β) :
    optFilter p (some b) = if p b then some b else none := rfl

theorem optFilter_none {β : Type} (p : β → Bool) :
    optFilter p none = none := rfl

theorem optContribution_some {β : Type} (g : β → Nat) (y : β) :
    optContribution g (some y) = g y := rfl

theorem optContribution_none {β : Type} (g : β → Nat) :
    optContribution g none = 0 := rfl

theorem filter_filterMap {α β : Type} (l : List α) (f : α → Option β)
    (p : β → Bool) :
    (l.filterMap f).filter p = l.filterMap (fun x => optFilter p (f x)) := by
  induction l with
  | nil => rfl
  | cons a rest ih =>
    rw [List.filterMap_cons, List.filterMap_cons]
    cases hf : f a with
    | none => exact ih
    | some b =>
      rw [List.filter_cons, optFilter_some]
      cases hp : p b
      · simp only [hp, Bool.false_eq_true, if_false]
        exact ih
      · simp only [hp, if_true]
        rw [ih]

theorem len_flatMap_filterMap {α β γ : Type} (l : List α) (f : α → Option β)
    (g : β → List γ) :
    ((l.filterMap f).flatMap g).length =
      (l.map (fun x => optContribution (fun y => (g y).length) (f x))).sum := by
  induction l with
  | nil => rfl
  | cons a rest ih =>
    rw [List.filterMap_cons, List.map_cons, List.sum_cons]
    cases hf : f a with
    | none =>
      rw [optContribution_none]
      dsimp only
      rw [ih]
      exact (Nat.zero_add _).symm
    | some b =>
      rw [optContribution_some]
      dsimp only
      rw [List.flatMap_cons, List.length_append, ih]

theorem sum_map_ite {α : Type} (l : List α) (p : α → Bool) :
    (l.map (fun x => if p x then 1 else 0)).sum = l.countP p := by
  induction l with
  | nil => rfl
  | cons a rest ih =>
    rw [List.map_cons, List.sum_cons, List.countP_cons, ih]
    cases hp : p a <;> simp [Nat.add_comm]

theorem childNamesAll_root (fs : Fs) :
    childNamesAll fs ['.'] = fs.filterMap (fun kv => isChildName ['.'] kv.1) := by
  unfold childNamesAll
  rw [List.filterMap_map]
  rfl

theorem list_directory_eq_filter (cfg : Config) (fs : Fs) (p : PyStr) :
    list_directory cfg fs p = (childNamesAll fs p).filter
      (fun e => cfg.include_hidden || !hiddenName e) := by
  unfold list_directory
  cases h : cfg.include_hidden
  · simp
  · simp

theorem isChildName_root_none (k : PyStr) (hc : k.contains '/' = true) :
    isChildName ['.'] k = none := by
  unfold isChildName
  rw [if_pos (Or.inl rfl)]
  rw [if_neg (by
    intro hand
    exact hand.2 hc)]

theorem isChildName_root_some (k : PyStr) (h1 : k ≠ [])
    (hc : k.contains '/' = false) :
    isChildName ['.'] k = some k := by
  unfold isChildName
  rw [if_pos (Or.inl rfl)]
  rw [if_pos ⟨h1, by rw [hc]; exact Bool.false_ne_true⟩]

theorem count_slash_zero (k : PyStr) (hc : k.contains '/' = false) :
    k.count '/' = 0 := by
  rw [List.count_eq_zero]
  simpa [List.contains] using hc

theorem count_slash_pos (k : PyStr) (hc : k.contains '/' = true) :
    0 < k.count '/' := by
  rcases Nat.eq_zero_or_pos (k.count '/') with h | h
  · rw [List.count_eq_zero] at h
    exact absurd (by simpa [List.contains] using hc) h
  · exact h

theorem len_eq_iter_zero (cfg : Config) (fs : Fs)
    (hml : cfg.max_levels = some 0)
    (hnd : (fs.map Prod.fst).Nodup)
    (hwf0 : ∀ kv ∈ fs, kv.1 ≠ []) :
    lenOp cfg fs = ((list_directory cfg fs ['.']).flatMap (fun e =>
      if isDir fs e then
        if cfg.include_directories then [e ++ ['/']] else []
      else [e])).length := by
  rw [list_directory_eq_filter, childNamesAll_root, filter_filterMap,
    len_flatMap_filterMap]
  have hpt : ∀ kv ∈ fs,
      (fun kv : PyStr × FsEntry =>
        optContribution
          (fun y => ((fun e =>
            if isDir fs e then
              if cfg.include_directories then [e ++ ['/']] else []
            else [e]) y).length)
          (optFilter (fun e => cfg.include_hidden || !hiddenName e)
            (isChildName ['.'] kv.1))) kv =
      (fun kv : PyStr × FsEntry =>
        if keepWalk cfg cfg.max_levels kv.1 &&
            (cfg.include_directories || !(kv.2 = FsEntry.dir)) then 1
        else 0) kv := by
    intro kv hmem
    dsimp only
    have hk1 : kv.1 ≠ [] := hwf0 kv hmem
    cases hc : kv.1.contains '/' with
    | true =>
      rw [isChildName_root_none kv.1 hc, optFilter_none, optContribution_none]
      have hkw : keepWalk cfg cfg.max_levels kv.1 = false := by
        unfold keepWalk
        rw [hml]
        dsimp only
        have hpos := count_slash_pos kv.1 hc
        rw [show decide (kv.1.count '/' ≤ 0) = false from by
          simp
          omega]
        rfl
      rw [hkw]
      simp
    | false =>
      rw [isChildName_root_some kv.1 hk1 hc, optFilter_some]
      have hdep : decide (kv.1.count '/' ≤ 0) = true := by
        simp [count_slash_zero kv.1 hc]
      have hhid : isHiddenPath kv.1 = hiddenName kv.1 :=
        isHiddenPath_no_slash kv.1 hc
      cases hh : (cfg.include_hidden || !hiddenName kv.1) with
      | false =>
        have hkw : keepWalk cfg cfg.max_levels kv.1 = false := by
          unfold keepWalk
          rw [hml]
          dsimp only
          rw [hdep, hhid, hh]
          rfl
        rw [hkw]
        simp only [Bool.false_eq_true, if_false, optContribution_none,
          Bool.false_and]
      | true =>
        have hkw : keepWalk cfg cfg.max_levels kv.1 = true := by
          unfold keepWalk
          rw [hml]
          dsimp only
          rw [hdep, hhid, hh]
          rfl
        rw [hkw]
        simp only [if_true, optContribution_some, Bool.true_and]
        have hlk := lookup_of_mem_nodup fs kv hnd hmem
        cases he : kv.2 with
        | dir =>
          have hid : isDir fs kv.1 = true := by
            unfold isDir
            rw [hlk, he]
          rw [hid]
          simp only [if_true]
          cases hi : cfg.include_directories <;> simp
        | file c =>
          have hid : isDir fs kv.1 = false := by
            unfold isDir
            rw [hlk, he]
          rw [hid]
          simp [he]
  rw [List.map_congr_left hpt, sum_map_ite]
  unfold lenOp
  rw [← List.countP_eq_length_filter]

/-- C9: the single remote count of `__len__` applies the same depth,
hidden-entry and directory/file filters as `__iter__`, so on a well-formed
remote tree (no duplicate, empty, or slash-terminated paths) the length
always equals the number of keys iteration yields — in both the
`max_levels == 0` listing strategy and the bulk-walk strategy. -/
theorem len_agrees_iter (cfg : Config) (fs : Fs)
    (hnd : (fs.map Prod.fst).Nodup)
    (hwf : ∀ kv ∈ fs, kv.1 ≠ [] ∧ kv.1.getLast? ≠ some '/') :
    lenOp cfg fs = (iterKeys cfg fs).length := by
  unfold iterKeys
  cases hml : cfg.max_levels with
  | none =>
    exact len_eq_iter_walk cfg fs none hml hnd (fun kv h => (hwf kv h).2)
  | some m =>
    cases m with
    | zero =>
      exact len_eq_iter_zero cfg fs hml hnd (fun kv h => (hwf kv h).1)
    | succ m2 =>
      exact len_eq_iter_walk cfg fs (some (m2 + 1)) hml hnd
        (fun kv h => (hwf kv h).2)

/-- C9 witness: concrete agreement in both strategies. -/
theorem len_agrees_iter_witness :
    lenOp ({} : Config)
      [("a".data, FsEntry.dir), ("a/b".data, FsEntry.file [7]),
       (".h".data, FsEntry.file [])] =
      (iterKeys ({} : Config)
        [("a".data, FsEntry.dir), ("a/b".data, FsEntry.file [7]),
         (".h".data, FsEntry.file [])]).length ∧
    lenOp ({ max_levels := none, include_directories := false } : Config)
      [("a".data, FsEntry.dir), ("a/b".data, FsEntry.file [7]),
       (".h".data, FsEntry.file [])] =
      (iterKeys ({ max_levels := none, include_directories := false } : Config)
        [("a".data, FsEntry.dir), ("a/b".data, FsEntry.file [7]),
         (".h".data, FsEntry.file [])]).length :=
  ⟨len_agrees_iter ({} : Config) _ (by decide) (by decide),
   len_agrees_iter ({ max_levels := none, include_directories := false } : Config)
     _ (by decide) (by decide)⟩
